import Mathlib

/-!
Verification of the ABC tune analyzer (`abc_parser_app.py`).

Python strings are modelled as `List Char`.  The parser `parse_abc_file`
is modelled by `parseLines` acting on the list of lines obtained from the
raw text; the SQLite-backed `TuneDatabase` is modelled as a list of rows
with auto-incremented ids; the pandas query layer is modelled over lists
of rows, with `str.contains` (a regex search) modelled by a regex
fragment covering literal characters and the `.` metacharacter.
-/

/-- Whitespace characters recognised by Python's `str.strip()`
(the ASCII ones; the source data is ASCII). -/
def isPySpace (c : Char) : Bool :=
  c = ' ' || c = '\t' || c = '\n' || c = '\x0d' || c = '\x0b' || c = '\x0c'

/-- Python `str.strip()`: drop leading and trailing whitespace. -/
def pyStrip (l : List Char) : List Char :=
  ((l.dropWhile isPySpace).reverse.dropWhile isPySpace).reverse

/-- Python `str.split(sep)` for a one-character separator: the list of
(possibly empty) segments between occurrences of `sep`. -/
def pySplit (sep : Char) : List Char → List (List Char)
  | [] => [[]]
  | d :: ds =>
    if d = sep then [] :: pySplit sep ds
    else
      match pySplit sep ds with
      | [] => [[d]]
      | p :: ps => (d :: p) :: ps

/-- Python `str.startswith(p)`. -/
def listSW : List Char → List Char → Bool
  | [], _ => true
  | _ :: _, [] => false
  | p :: ps, c :: cs => p = c && listSW ps cs

/-- `line.split(':')[1].strip()` — the value the parser stores for a
marker line (the segment between the first and second colon, stripped).
On a marker line there is always at least one colon, so index 1 exists;
the `[]` default is never used on such lines. -/
def markerVal (line : List Char) : List Char :=
  pyStrip ((pySplit ':' line).getD 1 [])

/-- A parsed tune: the dictionary built by `parse_abc_file`.
`X` is always present (set when the record opens); `T`, `R`, `K` are
optional (absent keys of the Python dict). -/
structure Tune where
  book_id : Int
  X : List Char
  T : Option (List Char)
  R : Option (List Char)
  K : Option (List Char)
  content : List Char
deriving DecidableEq, Repr

/-- The dictionary `{'book_id': b, 'content': line+'\n', 'X': ...}` built
when an `X:` line (already stripped) opens a record. -/
def newTune (b : Int) (line : List Char) : Tune :=
  { book_id := b
    X := markerVal line
    T := none
    R := none
    K := none
    content := line ++ ['\n'] }

/-- Processing of one stripped, non-blank, non-`X:` line while a record
is open: append the line to `content`, then update `T` (first-wins),
`R`, `K` (last-wins). -/
def procLine (t : Tune) (line : List Char) : Tune :=
  let t' : Tune := { t with content := t.content ++ line ++ ['\n'] }
  if listSW ['T', ':'] line then
    if t'.T = none then { t' with T := some (markerVal line) } else t'
  else if listSW ['R', ':'] line then { t' with R := some (markerVal line) }
  else if listSW ['K', ':'] line then { t' with K := some (markerVal line) }
  else t'

/-- The line loop of `parse_abc_file`: the `Option Tune` argument is the
state (`current_tune` / `in_tune`), `none` before the first `X:` line. -/
def parseLines (b : Int) : List (List Char) → Option Tune → List Tune
  | [], none => []
  | [], some t => [t]
  | l :: ls, cur =>
    let line := pyStrip l
    if line = [] then parseLines b ls cur
    else if listSW ['X', ':'] line then
      match cur with
      | some t => t :: parseLines b ls (some (newTune b line))
      | none => parseLines b ls (some (newTune b line))
    else
      match cur with
      | none => parseLines b ls none
      | some t => parseLines b ls (some (procLine t line))

/-- `parse_abc_file` on successfully read text: split into lines and run
the line loop with no open record. -/
def parse_abc_text (text : List Char) (b : Int) : List Tune :=
  parseLines b (pySplit '\n' text) none

/-- One row of the `tunes` table (and of the loaded pandas view).
Text columns are `Option` because the view distinguishes null/missing
values (`na` handling in the filters). -/
structure DFRow where
  id : Nat
  book_id : Int
  reference_number : Option (List Char)
  title : Option (List Char)
  rhythm : Option (List Char)
  key_sig : Option (List Char)
  content : Option (List Char)
deriving DecidableEq, Repr

/-- The `tunes` table: rows in insertion order, ids auto-incremented. -/
structure TuneDatabase where
  rows : List DFRow
deriving DecidableEq, Repr

/-- A freshly created store (empty table). -/
def emptyDB : TuneDatabase := ⟨[]⟩

/-- The sentinel default for absent title / rhythm / key. -/
def unknownV : List Char := ['U', 'n', 'k', 'n', 'o', 'w', 'n']

/-- `TuneDatabase.insert_tune`: append one row, with defaults
`'Unknown'` for missing `T`/`R`/`K` and auto-incremented id. -/
def insert_tune (db : TuneDatabase) (t : Tune) : TuneDatabase :=
  ⟨db.rows ++
    [{ id := db.rows.length + 1
       book_id := t.book_id
       reference_number := some t.X
       title := some (t.T.getD unknownV)
       rhythm := some (t.R.getD unknownV)
       key_sig := some (t.K.getD unknownV)
       content := some t.content }]⟩

/-- `TuneAnalyzer.load_data`: `SELECT * FROM tunes`, rows in insertion
order. -/
def load_data (db : TuneDatabase) : List DFRow := db.rows

/-- An atom of the regex fragment used by the pandas filters: a literal
character or the `.` metacharacter. -/
inductive RAtom where
  | lit : Char → RAtom
  | dot : RAtom
deriving DecidableEq, Repr

/-- Whether one regex atom matches one character, under `re.IGNORECASE`
(literals compare case-folded). -/
def atomMatch : RAtom → Char → Bool
  | RAtom.lit c, d => c.toLower = d.toLower
  | RAtom.dot, _ => true

/-- Whether the pattern matches at the start of the string. -/
def patHere : List RAtom → List Char → Bool
  | [], _ => true
  | _ :: _, [] => false
  | a :: ps, c :: cs => atomMatch a c && patHere ps cs

/-- `re.search`: whether the pattern matches at some position. -/
def patSearch (p : List RAtom) : List Char → Bool
  | [] => patHere p []
  | c :: cs => patHere p (c :: cs) || patSearch p cs

/-- Compile a pattern string of the fragment: `.` becomes the wildcard,
everything else a literal. -/
def parsePat (pat : List Char) : List RAtom :=
  pat.map (fun c => if c = '.' then RAtom.dot else RAtom.lit c)

/-- Python `re` metacharacters: patterns avoiding all of these are
matched purely literally. -/
def metaChars : List Char :=
  ['.', '^', '$', '*', '+', '?', '\x7b', '\x7d', '[', ']', '\\', '|', '(', ')']

/-- Lowercasing, modelling `re.IGNORECASE` / `case=False`. -/
def lowerL (l : List Char) : List Char := l.map Char.toLower

/-- `Series.str.contains(pat, case=False, na=False)` on one cell:
null never matches; otherwise a case-insensitive regex search. -/
def str_contains (cell : Option (List Char)) (pat : List Char) : Bool :=
  match cell with
  | none => false
  | some s => patSearch (parsePat pat) s

/-- `TuneAnalyzer.get_tunes_by_rhythm`. -/
def get_tunes_by_rhythm (df : List DFRow) (rhythm : List Char) : List DFRow :=
  df.filter (fun r => str_contains r.rhythm rhythm)

/-- `TuneAnalyzer.search_tunes`. -/
def search_tunes (df : List DFRow) (term : List Char) : List DFRow :=
  df.filter (fun r => str_contains r.title term)

/-- Literal (non-regex) substring containment, as the spec's
"contains the argument as a substring" reads. -/
def hasSub (pat : List Char) : List Char → Bool
  | [] => pat.isEmpty
  | c :: cs => listSW pat (c :: cs) || hasSub pat cs

/-- An ingestion source: identifier, book id, and the outcome of
reading/decoding its text (`Except.error` = read failure). -/
structure Src where
  name : List Char
  book : Int
  text : Except (List Char) (List Char)

/-- The message `print(f"Error reading {filepath}: {e}")`. -/
def errMsg (fp e : List Char) : List Char :=
  ("Error reading ".toList) ++ fp ++ (": ".toList) ++ e

/-- `parse_abc_file` with the read outcome explicit: on success the
parsed tunes and no diagnostics, on a read failure no tunes and one
diagnostic naming the source. -/
def parse_abc_file (s : Src) : List Tune × List (List Char) :=
  match s.text with
  | Except.ok txt => (parse_abc_text txt s.book, [])
  | Except.error e => ([], [errMsg s.name e])

/-- `process_directory`: parse each source, insert its tunes, count
them, and collect diagnostics. -/
def process_directory : List Src → TuneDatabase → TuneDatabase × Nat × List (List Char)
  | [], db => (db, 0, [])
  | s :: ss, db =>
    let pr := parse_abc_file s
    let db1 := pr.1.foldl insert_tune db
    let rest := process_directory ss db1
    (rest.1, pr.1.length + rest.2.1, pr.2 ++ rest.2.2)

/-- The fold step corresponding to one loop iteration on a non-`X:` raw
line while a record is open. -/
def stepT (t : Tune) (l : List Char) : Tune :=
  if pyStrip l = [] then t else procLine t (pyStrip l)

/-- The substring of a line after its first colon (empty if none). -/
def afterFirstColon (l : List Char) : List Char :=
  (l.dropWhile (fun c => c != ':')).drop 1

/-- The substring of a line strictly between its first and second colon
(up to the end of the line if there is no second colon). -/
def secondSeg (l : List Char) : List Char :=
  (afterFirstColon l).takeWhile (fun c => c != ':')

/-- Case-insensitive literal substring containment — the relation the
spec's "contains the argument as a substring, compared
case-insensitively" describes. -/
def containsCI (pat s : List Char) : Bool :=
  hasSub (lowerL pat) (lowerL s)

/-- The expected rows of the store after inserting a list of tunes into
a table that already holds `n` rows: ids `n+1, n+2, …`, fields copied
with the `'Unknown'` defaults. -/
def rowsFrom (n : Nat) : List Tune → List DFRow
  | [] => []
  | t :: ts =>
    { id := n + 1
      book_id := t.book_id
      reference_number := some t.X
      title := some (t.T.getD unknownV)
      rhythm := some (t.R.getD unknownV)
      key_sig := some (t.K.getD unknownV)
      content := some t.content } :: rowsFrom (n + 1) ts

/-- A line that (after stripping) is neither an opening marker nor any
recognized field marker — e.g. a music-body line. -/
def neutralL (l : List Char) : Prop :=
  listSW ['X', ':'] (pyStrip l) = false ∧ listSW ['T', ':'] (pyStrip l) = false ∧
    listSW ['R', ':'] (pyStrip l) = false ∧ listSW ['K', ':'] (pyStrip l) = false

section Lemmas

lemma dropWhile_concat_not (p : Char → Bool) (c : Char) (h : p c = false) :
    ∀ xs : List Char, List.dropWhile p (xs ++ [c]) = List.dropWhile p xs ++ [c] := by
  intro xs
  induction xs with
  | nil => simp [List.dropWhile, h]
  | cons a xs ih =>
    by_cases ha : p a
    · simpa [List.dropWhile, ha] using ih
    · simp [List.dropWhile, ha]

lemma dropWhile_head_not (p : Char → Bool) :
    ∀ (l : List Char) (c : Char) (t : List Char),
      List.dropWhile p l = c :: t → p c = false := by
  intro l
  induction l with
  | nil => intro c t h; simp [List.dropWhile] at h
  | cons a l ih =>
    intro c t h
    by_cases ha : p a
    · exact ih c t (by simpa [List.dropWhile, ha] using h)
    · rw [List.dropWhile_cons_of_neg ha] at h
      cases h
      simpa using ha

lemma pyStrip_idem (l : List Char) : pyStrip (pyStrip l) = pyStrip l := by
  rcases hu : List.dropWhile isPySpace l with _ | ⟨c, u'⟩
  · have h0 : pyStrip l = [] := by simp [pyStrip, hu]
    rw [h0]
    rfl
  · have hc : isPySpace c = false := dropWhile_head_not _ l c u' hu
    have hA : pyStrip l = c :: (List.dropWhile isPySpace u'.reverse).reverse := by
      simp [pyStrip, hu, dropWhile_concat_not _ c hc]
    rw [hA]
    unfold pyStrip
    rw [List.dropWhile_cons, if_neg (by simp [hc]), List.reverse_cons,
      List.reverse_reverse, dropWhile_concat_not _ c hc,
      List.dropWhile_idempotent]
    simp

lemma parse_mapStrip (b : Int) (ls : List (List Char)) :
    ∀ cur, parseLines b (ls.map pyStrip) cur = parseLines b ls cur := by
  induction ls with
  | nil => intro cur; cases cur <;> rfl
  | cons l ls ih =>
    intro cur
    simp only [List.map_cons, parseLines, pyStrip_idem]
    by_cases h1 : pyStrip l = []
    · simp [h1, ih]
    · by_cases h2 : listSW ['X', ':'] (pyStrip l) = true
      · cases cur <;> simp [h1, h2, ih]
      · cases cur <;> simp [h1, h2, ih]

lemma parse_filterBlank (b : Int) (ls : List (List Char)) :
    ∀ cur, parseLines b (ls.filter (fun l => !(pyStrip l).isEmpty)) cur =
      parseLines b ls cur := by
  induction ls with
  | nil => intro cur; rfl
  | cons l ls ih =>
    intro cur
    by_cases h1 : pyStrip l = []
    · simp [List.filter_cons, h1, parseLines, ih]
    · have hne : ((pyStrip l).isEmpty = false) := by
        cases h : pyStrip l with
        | nil => exact absurd h h1
        | cons a t => simp [List.isEmpty]
      simp only [List.filter_cons, hne, Bool.not_false, if_pos rfl, parseLines]
      by_cases h2 : listSW ['X', ':'] (pyStrip l) = true
      · cases cur <;> simp [h1, h2, ih]
      · cases cur <;> simp [h1, h2, ih]

lemma listSW_two_iff (a b : Char) (l : List Char) :
    listSW [a, b] l = true ↔ ∃ t, l = a :: b :: t := by
  match l with
  | [] => simp [listSW]
  | [c] => simp [listSW]
  | c :: d :: t =>
    constructor
    · intro h
      simp [listSW] at h
      exact ⟨t, by rw [h.1, h.2]⟩
    · rintro ⟨t', ht⟩
      injection ht with h1 ht2
      injection ht2 with h2 _
      simp [listSW, h1, h2]

lemma listSW_marker_ne (a b : Char) (l : List Char) (hab : a ≠ b)
    (h : listSW [a, ':'] l = true) : listSW [b, ':'] l = false := by
  obtain ⟨t, ht⟩ := (listSW_two_iff a ':' l).1 h
  subst ht
  simp [listSW]
  intro hba
  exact absurd hba.symm hab

lemma listSW_append (p : List Char) :
    ∀ l m : List Char, listSW p l = true → listSW p (l ++ m) = true := by
  induction p with
  | nil => intro l m _; rfl
  | cons a p ih =>
    intro l m h
    cases l with
    | nil => simp [listSW] at h
    | cons c cs =>
      simp [listSW] at h ⊢
      exact ⟨h.1, ih cs m h.2⟩

lemma listSW_ne_nil (a b : Char) (h : listSW [a, b] ([] : List Char) = true) :
    False := by
  simp [listSW] at h

lemma flushX (b : Int) (x : List Char) (ls : List (List Char)) (t : Tune)
    (hx : listSW ['X', ':'] (pyStrip x) = true) :
    parseLines b (x :: ls) (some t) = t :: parseLines b (x :: ls) none := by
  have hne : ¬ pyStrip x = [] := by
    intro h
    rw [h] at hx
    exact listSW_ne_nil _ _ hx
  simp [parseLines, hne, hx]

/-- Processing a run of non-opening lines followed by either nothing or
an opening line: the open record absorbs the run (as a fold) and is then
emitted. -/
lemma parse_seg (b : Int) :
    ∀ (ls : List (List Char)) (t : Tune) (rest : List (List Char)),
      (∀ l ∈ ls, listSW ['X', ':'] (pyStrip l) = false) →
      (rest = [] ∨ ∃ r rs, rest = r :: rs ∧ listSW ['X', ':'] (pyStrip r) = true) →
      parseLines b (ls ++ rest) (some t) =
        ls.foldl stepT t :: parseLines b rest none := by
  intro ls
  induction ls with
  | nil =>
    intro t rest _ hrest
    rcases hrest with rfl | ⟨r, rs, rfl, hr⟩
    · rfl
    · simpa using flushX b r rs t hr
  | cons l ls ih =>
    intro t rest hls hrest
    have hlX : listSW ['X', ':'] (pyStrip l) = false := hls l (by simp)
    by_cases h1 : pyStrip l = []
    · have : stepT t l = t := by simp [stepT, h1]
      simp only [List.cons_append, parseLines, h1, if_pos rfl, List.foldl_cons, this]
      exact ih t rest (fun x hx => hls x (by simp [hx])) hrest
    · simp only [List.cons_append, parseLines, h1, if_neg h1, hlX, List.foldl_cons]
      have hst : stepT t l = procLine t (pyStrip l) := by simp [stepT, h1]
      rw [if_neg (by simp [hlX])]
      rw [hst]
      exact ih (procLine t (pyStrip l)) rest (fun x hx => hls x (by simp [hx])) hrest

lemma parse_noX_some (b : Int) (ls : List (List Char)) (t : Tune)
    (hls : ∀ l ∈ ls, listSW ['X', ':'] (pyStrip l) = false) :
    parseLines b ls (some t) = [ls.foldl stepT t] := by
  have := parse_seg b ls t [] hls (Or.inl rfl)
  simpa using this

lemma parse_noX_none (b : Int) :
    ∀ ls : List (List Char),
      (∀ l ∈ ls, listSW ['X', ':'] (pyStrip l) = false) →
      parseLines b ls none = [] := by
  intro ls
  induction ls with
  | nil => intro _; rfl
  | cons l ls ih =>
    intro h
    have hlX := h l (by simp)
    by_cases h1 : pyStrip l = []
    · simp only [parseLines, h1, if_pos rfl]
      exact ih fun x hx => h x (by simp [hx])
    · simp only [parseLines, if_neg h1]
      rw [if_neg (by simp [hlX])]
      exact ih fun x hx => h x (by simp [hx])

lemma procLine_content (t : Tune) (line : List Char) :
    (procLine t line).content = t.content ++ line ++ ['\n'] := by
  unfold procLine
  dsimp only
  split
  · split <;> rfl
  · split
    · rfl
    · split <;> rfl

lemma procLine_book_X (t : Tune) (line : List Char) :
    (procLine t line).book_id = t.book_id ∧ (procLine t line).X = t.X := by
  unfold procLine
  dsimp only
  split
  · split <;> exact ⟨rfl, rfl⟩
  · split
    · exact ⟨rfl, rfl⟩
    · split <;> exact ⟨rfl, rfl⟩

lemma procLine_T_set (t : Tune) (line : List Char)
    (hT : listSW ['T', ':'] line = true) (h : t.T = none) :
    (procLine t line).T = some (markerVal line) ∧
      (procLine t line).R = t.R ∧ (procLine t line).K = t.K := by
  unfold procLine
  simp [hT, h]

lemma procLine_T_keep (t : Tune) (line : List Char) (a : List Char)
    (hT : listSW ['T', ':'] line = true) (h : t.T = some a) :
    (procLine t line).T = some a ∧
      (procLine t line).R = t.R ∧ (procLine t line).K = t.K := by
  unfold procLine
  simp [hT, h]

lemma procLine_R_set (t : Tune) (line : List Char)
    (hT : listSW ['T', ':'] line = false) (hR : listSW ['R', ':'] line = true) :
    (procLine t line).T = t.T ∧
      (procLine t line).R = some (markerVal line) ∧ (procLine t line).K = t.K := by
  unfold procLine
  simp [hT, hR]

lemma procLine_K_set (t : Tune) (line : List Char)
    (hT : listSW ['T', ':'] line = false) (hR : listSW ['R', ':'] line = false)
    (hK : listSW ['K', ':'] line = true) :
    (procLine t line).T = t.T ∧
      (procLine t line).R = t.R ∧ (procLine t line).K = some (markerVal line) := by
  unfold procLine
  simp [hT, hR, hK]

lemma procLine_neutral (t : Tune) (line : List Char)
    (hT : listSW ['T', ':'] line = false) (hR : listSW ['R', ':'] line = false)
    (hK : listSW ['K', ':'] line = false) :
    procLine t line = { t with content := t.content ++ line ++ ['\n'] } := by
  unfold procLine
  simp [hT, hR, hK]

lemma stepT_content (t : Tune) (l : List Char) :
    (stepT t l).content =
      t.content ++ (if pyStrip l = [] then [] else pyStrip l ++ ['\n']) := by
  unfold stepT
  by_cases h : pyStrip l = []
  · simp [h]
  · simp [h, procLine_content, List.append_assoc]

lemma foldl_stepT_content (ls : List (List Char)) :
    ∀ t : Tune,
      (ls.foldl stepT t).content =
        t.content ++
          (((ls.map pyStrip).filter (fun l => !l.isEmpty)).map
            (fun l => l ++ ['\n'])).flatten := by
  induction ls with
  | nil => intro t; simp
  | cons l ls ih =>
    intro t
    by_cases h : pyStrip l = []
    · have hstep : stepT t l = t := by simp [stepT, h]
      simp [hstep, ih, h]
    · have hne : (pyStrip l).isEmpty = false := by
        cases hh : pyStrip l with
        | nil => exact absurd hh h
        | cons a u => simp [List.isEmpty]
      simp only [List.foldl_cons, ih, List.map_cons, List.filter_cons, hne,
        Bool.not_false, if_pos rfl, List.map_cons, List.flatten, stepT_content, h,
        if_neg h]
      simp [List.append_assoc]

lemma parsePat_lit (p : List Char) (h : ∀ c ∈ p, c ≠ '.') :
    parsePat p = p.map RAtom.lit := by
  induction p with
  | nil => rfl
  | cons c cs ih =>
    have hc : c ≠ '.' := h c (by simp)
    simp only [parsePat, List.map_cons, if_neg hc]
    rw [← parsePat]
    rw [ih fun x hx => h x (by simp [hx])]

lemma patHere_lit (p : List Char) :
    ∀ s : List Char, patHere (p.map RAtom.lit) s = listSW (lowerL p) (lowerL s) := by
  induction p with
  | nil => intro s; rfl
  | cons c cs ih =>
    intro s
    cases s with
    | nil => rfl
    | cons d ds =>
      simp only [List.map_cons, patHere, atomMatch, lowerL, List.map_cons, listSW]
      rw [show List.map Char.toLower cs = lowerL cs from rfl,
        show List.map Char.toLower ds = lowerL ds from rfl, ← ih ds]

lemma patSearch_lit (p : List Char) :
    ∀ s : List Char, patSearch (p.map RAtom.lit) s = hasSub (lowerL p) (lowerL s) := by
  intro s
  induction s with
  | nil =>
    cases p with
    | nil => rfl
    | cons c cs => rfl
  | cons d ds ih =>
    show patSearch (p.map RAtom.lit) (d :: ds) = hasSub (lowerL p) (d.toLower :: lowerL ds)
    simp only [patSearch, hasSub]
    rw [← ih, patHere_lit p (d :: ds)]
    rfl

lemma pySplit_ne_nil (c : Char) : ∀ l : List Char, pySplit c l ≠ [] := by
  intro l
  induction l with
  | nil => simp [pySplit]
  | cons d ds ih =>
    by_cases h : d = c
    · simp [pySplit, h]
    · simp only [pySplit, if_neg h]
      rcases hs : pySplit c ds with _ | ⟨p, ps⟩
      · exact absurd hs ih
      · simp

lemma pySplit_head (c : Char) :
    ∀ l : List Char, (pySplit c l).getD 0 [] = l.takeWhile (fun d => d != c) := by
  intro l
  induction l with
  | nil => rfl
  | cons d ds ih =>
    by_cases h : d = c
    · simp [pySplit, h, List.takeWhile_cons]
    · simp only [pySplit, if_neg h]
      rcases hs : pySplit c ds with _ | ⟨p, ps⟩
      · exact absurd hs (pySplit_ne_nil c ds)
      · rw [hs] at ih
        simp only [List.getD, List.getElem?_cons_zero, Option.getD_some] at ih
        simp [List.takeWhile_cons, h, ← ih]

lemma pySplit_getD1 (m : Char) (l : List Char) (hm : m ≠ ':')
    (h : listSW [m, ':'] l = true) :
    (pySplit ':' l).getD 1 [] = secondSeg l := by
  obtain ⟨rest, hrest⟩ := (listSW_two_iff m ':' l).1 h
  subst hrest
  have h1 : pySplit ':' (m :: ':' :: rest) = [m] :: pySplit ':' rest := by
    simp only [pySplit, if_neg hm, if_pos rfl]
    rcases hs : pySplit ':' (':' :: rest) with _ | ⟨p, ps⟩
    · exact absurd hs (pySplit_ne_nil ':' _)
    · simp only [pySplit, if_pos rfl] at hs
      cases hs
      rfl
  rw [h1]
  have h2 : secondSeg (m :: ':' :: rest) = rest.takeWhile (fun d => d != ':') := by
    unfold secondSeg afterFirstColon
    rw [List.dropWhile_cons, if_pos (by simp [hm]), List.dropWhile_cons,
      if_neg (by simp)]
    simp
  rw [h2]
  have := pySplit_head ':' rest
  simpa using this

lemma markerVal_secondSeg (m : Char) (l : List Char) (hm : m ≠ ':')
    (h : listSW [m, ':'] l = true) :
    markerVal l = pyStrip (secondSeg l) := by
  unfold markerVal
  rw [pySplit_getD1 m l hm h]

lemma foldl_insert_rows :
    ∀ (ts : List Tune) (db : TuneDatabase),
      (ts.foldl insert_tune db).rows = db.rows ++ rowsFrom db.rows.length ts := by
  intro ts
  induction ts with
  | nil => intro db; simp [rowsFrom]
  | cons t ts ih =>
    intro db
    rw [List.foldl_cons, ih]
    simp only [insert_tune, List.length_append, List.length_cons, List.length_nil,
      rowsFrom, List.append_assoc, List.singleton_append]

lemma process_directory_append :
    ∀ (xs ys : List Src) (db : TuneDatabase),
      process_directory (xs ++ ys) db =
        ((process_directory ys (process_directory xs db).1).1,
         (process_directory xs db).2.1 +
           (process_directory ys (process_directory xs db).1).2.1,
         (process_directory xs db).2.2 ++
           (process_directory ys (process_directory xs db).1).2.2) := by
  intro xs
  induction xs with
  | nil => intro ys db; simp [process_directory]
  | cons s xs ih =>
    intro ys db
    simp only [List.cons_append, process_directory, List.append_eq, ih,
      Nat.add_assoc, List.append_assoc]

lemma process_directory_error (n e : List Char) (b : Int) (db : TuneDatabase) :
    process_directory [{ name := n, book := b, text := Except.error e }] db =
      (db, 0, [errMsg n e]) := by
  simp [process_directory, parse_abc_file]

lemma parse_open (b : Int) (l0 : List Char) (ls : List (List Char))
    (h0 : listSW ['X', ':'] (pyStrip l0) = true) :
    parseLines b (l0 :: ls) none =
      parseLines b ls (some (newTune b (pyStrip l0))) := by
  have h0ne : ¬ pyStrip l0 = [] := fun h => listSW_ne_nil 'X' ':' (h ▸ h0)
  simp [parseLines, h0ne, h0]

lemma parse_noX_drop (b : Int) :
    ∀ (pre rest : List (List Char)),
      (∀ l ∈ pre, listSW ['X', ':'] (pyStrip l) = false) →
      parseLines b (pre ++ rest) none = parseLines b rest none := by
  intro pre
  induction pre with
  | nil => intro rest _; rfl
  | cons l pre ih =>
    intro rest h
    have hlX := h l (by simp)
    by_cases h1 : pyStrip l = []
    · simp only [List.cons_append, parseLines, h1, if_pos rfl]
      exact ih rest fun x hx => h x (by simp [hx])
    · simp only [List.cons_append, parseLines, if_neg h1]
      rw [if_neg (by simp [hlX])]
      exact ih rest fun x hx => h x (by simp [hx])

lemma foldl_stepT_neutral (m : List (List Char)) :
    ∀ t : Tune, (∀ l ∈ m, neutralL l) →
      (m.foldl stepT t).T = t.T ∧ (m.foldl stepT t).R = t.R ∧
        (m.foldl stepT t).K = t.K := by
  induction m with
  | nil => intro t _; exact ⟨rfl, rfl, rfl⟩
  | cons l m ih =>
    intro t hm
    obtain ⟨_, hT, hR, hK⟩ := hm l (by simp)
    by_cases h : pyStrip l = []
    · have hstep : stepT t l = t := by simp [stepT, h]
      rw [List.foldl_cons, hstep]
      exact ih t fun x hx => hm x (by simp [hx])
    · have hstep : stepT t l = procLine t (pyStrip l) := by simp [stepT, h]
      rw [List.foldl_cons, hstep, procLine_neutral t (pyStrip l) hT hR hK]
      have := ih { t with content := t.content ++ pyStrip l ++ ['\n'] }
        fun x hx => hm x (by simp [hx])
      simpa using this

lemma stepT_concrete (t : Tune) (l : List Char) (h1 : pyStrip l = l)
    (h2 : l ≠ []) : stepT t l = procLine t l := by
  simp [stepT, h1, h2]

lemma rowsFrom_length : ∀ (n : Nat) (ts : List Tune),
    (rowsFrom n ts).length = ts.length := by
  intro n ts
  induction ts generalizing n with
  | nil => rfl
  | cons t ts ih => simp [rowsFrom, ih]

end Lemmas

/-- C1: parsing the concrete two-tune input of spec section 8 with
book_id 0 yields exactly two records with reference numbers "101"/"102",
titles "The Test Reel"/"The Quick Jig", rhythms "Reel"/"Jig", keys
"D"/"G", and the stated contents. -/
theorem C1_concrete_two_tune_parse :
    parse_abc_text "X:101\nT:The Test Reel\nR:Reel\nK:D\nABCD EFGH|\nX:102\nT:The Quick Jig\nR:Jig\nK:G\nGBdB GBdB|\n".toList 0 =
      [{ book_id := 0, X := "101".toList, T := some "The Test Reel".toList,
         R := some "Reel".toList, K := some "D".toList,
         content := "X:101\nT:The Test Reel\nR:Reel\nK:D\nABCD EFGH|\n".toList },
       { book_id := 0, X := "102".toList, T := some "The Quick Jig".toList,
         R := some "Jig".toList, K := some "G".toList,
         content := "X:102\nT:The Quick Jig\nR:Jig\nK:G\nGBdB GBdB|\n".toList }] := by
  decide

/-- C2 counterexample: on the multi-colon line `T:Foo: Bar` the stored
title is "Foo" (split on every colon, index 1), not the trimmed
substring after the first colon, which is "Foo: Bar". -/
theorem C2_counterexample :
    (parseLines 0 ["X:1".toList, "T:Foo: Bar".toList] none).map Tune.T =
        [some "Foo".toList] ∧
      pyStrip (afterFirstColon "T:Foo: Bar".toList) = "Foo: Bar".toList ∧
      (some "Foo".toList : Option (List Char)) ≠ some "Foo: Bar".toList := by
  decide

/-- C2 (amended): for marker lines, the stored value is the trimmed
segment of the stripped line strictly between the first colon and the
second colon (or the end of the line), for all four markers. -/
theorem C2_marker_values (b : Int) (lx lt lr lk : List Char)
    (hx : listSW ['X', ':'] (pyStrip lx) = true)
    (ht : listSW ['T', ':'] (pyStrip lt) = true)
    (hr : listSW ['R', ':'] (pyStrip lr) = true)
    (hk : listSW ['K', ':'] (pyStrip lk) = true) :
    (parseLines b [lx, lt, lr, lk] none).map (fun t => (t.X, t.T, t.R, t.K)) =
      [(pyStrip (secondSeg (pyStrip lx)),
        some (pyStrip (secondSeg (pyStrip lt))),
        some (pyStrip (secondSeg (pyStrip lr))),
        some (pyStrip (secondSeg (pyStrip lk))))] := by
  have htne : ¬ pyStrip lt = [] := fun h => listSW_ne_nil 'T' ':' (h ▸ ht)
  have hrne : ¬ pyStrip lr = [] := fun h => listSW_ne_nil 'R' ':' (h ▸ hr)
  have hkne : ¬ pyStrip lk = [] := fun h => listSW_ne_nil 'K' ':' (h ▸ hk)
  have hnoX : ∀ l ∈ [lt, lr, lk], listSW ['X', ':'] (pyStrip l) = false := by
    intro l hl
    rcases List.mem_cons.1 hl with rfl | hl
    · exact listSW_marker_ne 'T' 'X' _ (by decide) ht
    rcases List.mem_cons.1 hl with rfl | hl
    · exact listSW_marker_ne 'R' 'X' _ (by decide) hr
    rcases List.mem_cons.1 hl with rfl | hl
    · exact listSW_marker_ne 'K' 'X' _ (by decide) hk
    · cases hl
  rw [show ([lx, lt, lr, lk] : List (List Char)) = lx :: [lt, lr, lk] from rfl,
    parse_open b lx _ hx, parse_noX_some b _ _ hnoX]
  simp only [List.foldl_cons, List.foldl_nil]
  have e1 : stepT (newTune b (pyStrip lx)) lt =
      procLine (newTune b (pyStrip lx)) (pyStrip lt) := by simp [stepT, htne]
  rw [e1]
  obtain ⟨f1T, f1R, f1K⟩ :=
    procLine_T_set (newTune b (pyStrip lx)) (pyStrip lt) ht rfl
  obtain ⟨f1b, f1X⟩ := procLine_book_X (newTune b (pyStrip lx)) (pyStrip lt)
  set t1 := procLine (newTune b (pyStrip lx)) (pyStrip lt) with ht1
  have e2 : stepT t1 lr = procLine t1 (pyStrip lr) := by simp [stepT, hrne]
  rw [e2]
  have hTlr : listSW ['T', ':'] (pyStrip lr) = false :=
    listSW_marker_ne 'R' 'T' _ (by decide) hr
  obtain ⟨f2T, f2R, f2K⟩ := procLine_R_set t1 (pyStrip lr) hTlr hr
  obtain ⟨f2b, f2X⟩ := procLine_book_X t1 (pyStrip lr)
  set t2 := procLine t1 (pyStrip lr) with ht2
  have e3 : stepT t2 lk = procLine t2 (pyStrip lk) := by simp [stepT, hkne]
  rw [e3]
  have hTlk : listSW ['T', ':'] (pyStrip lk) = false :=
    listSW_marker_ne 'K' 'T' _ (by decide) hk
  have hRlk : listSW ['R', ':'] (pyStrip lk) = false :=
    listSW_marker_ne 'K' 'R' _ (by decide) hk
  obtain ⟨f3T, f3R, f3K⟩ := procLine_K_set t2 (pyStrip lk) hTlk hRlk hk
  obtain ⟨f3b, f3X⟩ := procLine_book_X t2 (pyStrip lk)
  simp only [List.map_cons, List.map_nil, f3T, f3R, f3K, f3X, f2T, f2R, f2K,
    f2X, f1T, f1R, f1K, f1X, newTune]
  rw [markerVal_secondSeg 'X' _ (by decide) hx, markerVal_secondSeg 'T' _ (by decide) ht,
    markerVal_secondSeg 'R' _ (by decide) hr, markerVal_secondSeg 'K' _ (by decide) hk]

/-- C2 witness: the amended statement at the concrete four-line record
`X:1 / T:A / R:Reel / K:D`. -/
theorem C2_marker_values_witness :
    (parseLines 0 ["X:1".toList, "T:A".toList, "R:Reel".toList, "K:D".toList]
          none).map (fun t => (t.X, t.T, t.R, t.K)) =
      [(pyStrip (secondSeg (pyStrip "X:1".toList)),
        some (pyStrip (secondSeg (pyStrip "T:A".toList))),
        some (pyStrip (secondSeg (pyStrip "R:Reel".toList))),
        some (pyStrip (secondSeg (pyStrip "K:D".toList))))] :=
  C2_marker_values 0 _ _ _ _ (by decide) (by decide) (by decide) (by decide)

/-- C3 counterexample: a body line with leading/trailing whitespace is
stored stripped in `content`, so the reconstruction is not verbatim. -/
theorem C3_counterexample :
    (parseLines 0 ["X:1".toList, "  abc  ".toList] none).map Tune.content =
        ["X:1\nabc\n".toList] ∧
      ("X:1\nabc\n".toList : List Char) ≠ "X:1\n  abc  \n".toList := by
  decide

/-- C3 (amended): a record's `content` is the whitespace-stripped form
of its opening line followed by the stripped forms of all subsequent
non-blank lines up to the next opening marker (or end of input), in
order, each terminated by a newline; the remaining records are the parse
of the rest. -/
theorem C3_content_stripped_lines (b : Int) (l0 : List Char)
    (ls rest : List (List Char))
    (h0 : listSW ['X', ':'] (pyStrip l0) = true)
    (hls : ∀ l ∈ ls, listSW ['X', ':'] (pyStrip l) = false)
    (hrest : rest = [] ∨
      ∃ r rs, rest = r :: rs ∧ listSW ['X', ':'] (pyStrip r) = true) :
    (parseLines b (l0 :: (ls ++ rest)) none).map Tune.content =
      (pyStrip l0 ++ ['\n'] ++
          (((ls.map pyStrip).filter (fun l => !l.isEmpty)).map
            (fun l => l ++ ['\n'])).flatten) ::
        (parseLines b rest none).map Tune.content := by
  rw [parse_open b l0 _ h0, parse_seg b ls _ rest hls hrest]
  simp only [List.map_cons]
  congr 1
  rw [foldl_stepT_content]
  simp [newTune, List.append_assoc]

/-- C3 witness: the amended statement at a concrete two-record input
with an indented body line. -/
theorem C3_content_stripped_lines_witness :
    (parseLines 0
        ("X:1".toList ::
          (["T:A".toList, "  body  ".toList] ++ ["X:2".toList])) none).map
        Tune.content =
      (pyStrip "X:1".toList ++ ['\n'] ++
          ((([("T:A".toList : List Char), "  body  ".toList].map pyStrip).filter
              (fun l => !l.isEmpty)).map (fun l => l ++ ['\n'])).flatten) ::
        (parseLines 0 ["X:2".toList] none).map Tune.content :=
  C3_content_stripped_lines 0 _ _ _ (by decide) (by decide)
    (Or.inr ⟨"X:2".toList, [], rfl, by decide⟩)

/-- C6: round-trip — inserting any list of parsed tunes into a fresh
store and loading all rows back gives one row per tune, in insertion
order with ids 1, 2, …, fields copied and absent title/rhythm/key
defaulting to "Unknown". -/
theorem C6_round_trip (ts : List Tune) :
    load_data (ts.foldl insert_tune emptyDB) = rowsFrom 0 ts ∧
      (rowsFrom 0 ts).length = ts.length := by
  constructor
  · have h := foldl_insert_rows ts emptyDB
    simpa [load_data, emptyDB] using h
  · exact rowsFrom_length 0 ts

/-- C7: blank lines are discarded entirely — parsing any input equals
parsing the same input with all blank (whitespace-only or empty) lines
removed. -/
theorem C7_blank_lines_discarded (b : Int) (ls : List (List Char)) :
    parseLines b (ls.filter (fun l => !(pyStrip l).isEmpty)) none =
      parseLines b ls none :=
  parse_filterBlank b ls none

/-- C8: lines before the first opening marker are silently dropped, and
an input with no opening-marker line parses to the empty sequence. -/
theorem C8_no_opening_marker (b : Int) (pre rest : List (List Char))
    (h : ∀ l ∈ pre, listSW ['X', ':'] (pyStrip l) = false) :
    parseLines b (pre ++ rest) none = parseLines b rest none ∧
      parseLines b pre none = [] :=
  ⟨parse_noX_drop b pre rest h, parse_noX_none b pre h⟩

/-- C8 witness: concrete input whose lines carry no opening marker. -/
theorem C8_no_opening_marker_witness :
    parseLines 0 (["T:Title".toList, "ABC def|".toList] ++ ["X:9".toList]) none =
        parseLines 0 ["X:9".toList] none ∧
      parseLines 0 ["T:Title".toList, "ABC def|".toList] none = [] :=
  C8_no_opening_marker 0 _ _ (by decide)

/-- C9: a source whose text cannot be read contributes no tunes, leaves
the store untouched, produces one diagnostic naming the source, and the
remaining sources of the run are processed exactly as without it. -/
theorem C9_read_failure (n e : List Char) (b : Int) (pre post : List Src)
    (db : TuneDatabase) :
    parse_abc_file { name := n, book := b, text := Except.error e } =
        ([], [errMsg n e]) ∧
      process_directory
          (pre ++ { name := n, book := b, text := Except.error e } :: post) db =
        ((process_directory post (process_directory pre db).1).1,
         (process_directory pre db).2.1 +
           (process_directory post (process_directory pre db).1).2.1,
         (process_directory pre db).2.2 ++
           errMsg n e :: (process_directory post (process_directory pre db).1).2.2) := by
  constructor
  · rfl
  · rw [process_directory_append pre
      ({ name := n, book := b, text := Except.error e } :: post) db]
    have h2 : process_directory
        ({ name := n, book := b, text := Except.error e } :: post)
        (process_directory pre db).1 =
        ((process_directory post (process_directory pre db).1).1,
         (process_directory post (process_directory pre db).1).2.1,
         errMsg n e ::
           (process_directory post (process_directory pre db).1).2.2) := by
      simp [process_directory, parse_abc_file]
    rw [h2]

/-- C10: every line is stripped before classification — parsing the
line-wise stripped input is the same as parsing the raw input; an
indented `X:` line opens a record and `content` stores stripped forms; a
whitespace-only line is discarded; and marker matching is
case-sensitive (`x:`/`t:` lines are not markers). -/
theorem C10_strip_before_classify :
    (∀ (b : Int) (ls : List (List Char)),
        parseLines b (ls.map pyStrip) none = parseLines b ls none) ∧
      parseLines 0 ["  X:7\t".toList, "  ABC  ".toList] none =
        [{ book_id := 0, X := "7".toList, T := none, R := none, K := none,
           content := "X:7\nABC\n".toList }] ∧
      parseLines 0 ["X:1".toList, "   ".toList, "K:D".toList] none =
        [{ book_id := 0, X := "1".toList, T := none, R := none,
           K := some "D".toList, content := "X:1\nK:D\n".toList }] ∧
      parseLines 0 ["x:1".toList, "t:Title".toList] none = [] :=
  ⟨fun b ls => parse_mapStrip b ls none, by decide, by decide, by decide⟩

/-- C5 counterexample: the filter argument is interpreted as a regular
expression, not a literal substring — "J.g" is not a substring of "Jig"
(case-insensitively), yet the row with rhythm "Jig" is returned because
`.` matches any character. -/
theorem C5_counterexample :
    (get_tunes_by_rhythm
        [{ id := 1, book_id := 0, reference_number := some "1".toList,
           title := some "t".toList, rhythm := some "Jig".toList,
           key_sig := some "G".toList, content := some [] }]
        "J.g".toList).map DFRow.id = [1] ∧
      containsCI "J.g".toList "Jig".toList = false := by
  decide

/-- C5 (amended): for arguments containing no regex metacharacter, the
rhythm filter (and analogously the title search) returns exactly the
rows whose rhythm (title) is non-null and contains the argument as a
substring, case-insensitively, in original order. -/
theorem C5_literal_filter (df : List DFRow) (pat : List Char)
    (h : ∀ c ∈ pat, metaChars.contains c = false) :
    get_tunes_by_rhythm df pat =
        df.filter (fun r => (r.rhythm.map (fun s => containsCI pat s)).getD false) ∧
      search_tunes df pat =
        df.filter (fun r => (r.title.map (fun s => containsCI pat s)).getD false) := by
  have hdot : ∀ c ∈ pat, c ≠ '.' := fun c hc he =>
    absurd (he ▸ h c hc) (by decide)
  have hpp : parsePat pat = pat.map RAtom.lit := parsePat_lit pat hdot
  have hcell : ∀ cell : Option (List Char),
      str_contains cell pat =
        (cell.map (fun s => containsCI pat s)).getD false := by
    intro cell
    cases cell with
    | none => rfl
    | some s =>
      show patSearch (parsePat pat) s = hasSub (lowerL pat) (lowerL s)
      rw [hpp, patSearch_lit]
  constructor
  · exact List.filter_congr fun r _ => hcell r.rhythm
  · exact List.filter_congr fun r _ => hcell r.title

/-- C5 witness: the amended statement at a concrete view holding a "Jig"
row and a "Reel" row, with the metacharacter-free argument "jig". -/
theorem C5_literal_filter_witness :
    get_tunes_by_rhythm
          [{ id := 1, book_id := 0, reference_number := some "1".toList,
             title := some "The Quick Jig".toList, rhythm := some "Jig".toList,
             key_sig := some "G".toList, content := some [] },
           { id := 2, book_id := 0, reference_number := some "2".toList,
             title := some "The Test Reel".toList, rhythm := some "Reel".toList,
             key_sig := some "D".toList, content := some [] }] "jig".toList =
        List.filter
          (fun r => (r.rhythm.map (fun s => containsCI "jig".toList s)).getD false)
          [{ id := 1, book_id := 0, reference_number := some "1".toList,
             title := some "The Quick Jig".toList, rhythm := some "Jig".toList,
             key_sig := some "G".toList, content := some [] },
           { id := 2, book_id := 0, reference_number := some "2".toList,
             title := some "The Test Reel".toList, rhythm := some "Reel".toList,
             key_sig := some "D".toList, content := some [] }] ∧
      search_tunes
          [{ id := 1, book_id := 0, reference_number := some "1".toList,
             title := some "The Quick Jig".toList, rhythm := some "Jig".toList,
             key_sig := some "G".toList, content := some [] },
           { id := 2, book_id := 0, reference_number := some "2".toList,
             title := some "The Test Reel".toList, rhythm := some "Reel".toList,
             key_sig := some "D".toList, content := some [] }] "jig".toList =
        List.filter
          (fun r => (r.title.map (fun s => containsCI "jig".toList s)).getD false)
          [{ id := 1, book_id := 0, reference_number := some "1".toList,
             title := some "The Quick Jig".toList, rhythm := some "Jig".toList,
             key_sig := some "G".toList, content := some [] },
           { id := 2, book_id := 0, reference_number := some "2".toList,
             title := some "The Test Reel".toList, rhythm := some "Reel".toList,
             key_sig := some "D".toList, content := some [] }] :=
  C5_literal_filter _ _ (by decide)

/-- C4: within one record — with arbitrary non-marker lines in between —
the title is first-wins ("T:A" then "T:B" gives "A") and rhythm and key
are last-wins ("R:D"/"K:D" then "R:G"/"K:G" give "G"). -/
theorem C4_title_first_rhythm_key_last (b : Int) (m1 m2 m3 : List (List Char))
    (h1 : ∀ l ∈ m1, neutralL l) (h2 : ∀ l ∈ m2, neutralL l)
    (h3 : ∀ l ∈ m3, neutralL l) :
    (parseLines b
        ("X:1".toList ::
          (m1 ++ ("T:A".toList ::
            (m2 ++ ("T:B".toList :: ("R:D".toList :: ("K:D".toList ::
              (m3 ++ ["R:G".toList, "K:G".toList])))))))) none).map
        (fun t => (t.T, t.R, t.K)) =
      [(some "A".toList, some "G".toList, some "G".toList)] := by
  have hnoX : ∀ l ∈ (m1 ++ ("T:A".toList ::
      (m2 ++ ("T:B".toList :: ("R:D".toList :: ("K:D".toList ::
        (m3 ++ ["R:G".toList, "K:G".toList]))))))),
      listSW ['X', ':'] (pyStrip l) = false := by
    refine List.forall_mem_append.2 ⟨fun l hl => (h1 l hl).1, ?_⟩
    refine List.forall_mem_cons.2 ⟨by decide, ?_⟩
    refine List.forall_mem_append.2 ⟨fun l hl => (h2 l hl).1, ?_⟩
    refine List.forall_mem_cons.2 ⟨by decide, ?_⟩
    refine List.forall_mem_cons.2 ⟨by decide, ?_⟩
    refine List.forall_mem_cons.2 ⟨by decide, ?_⟩
    refine List.forall_mem_append.2 ⟨fun l hl => (h3 l hl).1, ?_⟩
    refine List.forall_mem_cons.2 ⟨by decide, ?_⟩
    exact List.forall_mem_cons.2 ⟨by decide, List.forall_mem_nil _⟩
  rw [parse_open b _ _ (by decide), parse_noX_some b _ _ hnoX]
  have sA := fun t => stepT_concrete t "T:A".toList (by decide) (by decide)
  have sB := fun t => stepT_concrete t "T:B".toList (by decide) (by decide)
  have sRD := fun t => stepT_concrete t "R:D".toList (by decide) (by decide)
  have sKD := fun t => stepT_concrete t "K:D".toList (by decide) (by decide)
  have sRG := fun t => stepT_concrete t "R:G".toList (by decide) (by decide)
  have sKG := fun t => stepT_concrete t "K:G".toList (by decide) (by decide)
  simp only [List.foldl_append, List.foldl_cons, List.foldl_nil, sA, sB, sRD,
    sKD, sRG, sKG]
  set g0 := List.foldl stepT (newTune b (pyStrip "X:1".toList)) m1 with hg0
  have g0T : g0.T = none :=
    (foldl_stepT_neutral m1 (newTune b (pyStrip "X:1".toList)) h1).1.trans rfl
  set t1 := procLine g0 "T:A".toList with ht1
  obtain ⟨t1T, t1R, t1K⟩ := procLine_T_set g0 "T:A".toList (by decide) g0T
  have t1T' : t1.T = some "A".toList := by
    rw [t1T, show markerVal "T:A".toList = "A".toList from by decide]
  set g2 := List.foldl stepT t1 m2 with hg2
  obtain ⟨g2T, g2R, g2K⟩ := foldl_stepT_neutral m2 t1 h2
  have g2T' : g2.T = some "A".toList := g2T.trans t1T'
  set t3 := procLine g2 "T:B".toList with ht3
  obtain ⟨t3T, t3R, t3K⟩ :=
    procLine_T_keep g2 "T:B".toList "A".toList (by decide) g2T'
  set t4 := procLine t3 "R:D".toList with ht4
  obtain ⟨t4T, t4R, t4K⟩ := procLine_R_set t3 "R:D".toList (by decide) (by decide)
  set t5 := procLine t4 "K:D".toList with ht5
  obtain ⟨t5T, t5R, t5K⟩ :=
    procLine_K_set t4 "K:D".toList (by decide) (by decide) (by decide)
  set g6 := List.foldl stepT t5 m3 with hg6
  obtain ⟨g6T, g6R, g6K⟩ := foldl_stepT_neutral m3 t5 h3
  set t7 := procLine g6 "R:G".toList with ht7
  obtain ⟨t7T, t7R, t7K⟩ := procLine_R_set g6 "R:G".toList (by decide) (by decide)
  set t8 := procLine t7 "K:G".toList with ht8
  obtain ⟨t8T, t8R, t8K⟩ :=
    procLine_K_set t7 "K:G".toList (by decide) (by decide) (by decide)
  have hT : t8.T = some "A".toList := by
    rw [t8T, t7T, g6T, t5T, t4T, t3T]
  have hR : t8.R = some "G".toList := by
    rw [t8R, t7R, show markerVal "R:G".toList = "G".toList from by decide]
  have hK : t8.K = some "G".toList := by
    rw [t8K, show markerVal "K:G".toList = "G".toList from by decide]
  simp [hT, hR, hK]

/-- C4 witness: the first-wins/last-wins behaviour on the bare
seven-line record. -/
theorem C4_title_first_rhythm_key_last_witness :
    (parseLines 0
        ("X:1".toList ::
          ([] ++ ("T:A".toList ::
            ([] ++ ("T:B".toList :: ("R:D".toList :: ("K:D".toList ::
              ([] ++ ["R:G".toList, "K:G".toList])))))))) none).map
        (fun t => (t.T, t.R, t.K)) =
      [(some "A".toList, some "G".toList, some "G".toList)] :=
  C4_title_first_rhythm_key_last 0 [] [] [] (List.forall_mem_nil _)
    (List.forall_mem_nil _) (List.forall_mem_nil _)
